import Mathlib

/-!
Verification of the `sample-handler` repository (Go).

The repository has two parts, both in package `transport/http`:
 * a fixed-window rate-limiting middleware (`StatHolder`, `RateLimit`,
   `requestIP`), and
 * a fan-out HTTP handler (`ResponseSizeCounter` with `serve`, `getUrls`,
   `getRespSizes`, `doGet`, `splitToLines`, `isUrl`, and the collector
   `resSizes` with `String`/`Add`).

The embedding below is a shallow one:
 * Go strings / byte slices are `List Char` (one `Char` stands for one byte;
   every input relevant to the claims is ASCII, where the two coincide).
 * The Go `int32` counter is an `Int` kept in two's-complement range by
   `wrap32`, which is applied exactly where Go's `int32` arithmetic wraps.
 * Mutex-protected state is passed explicitly: each Go method that mutates
   its receiver returns the new state.  The mutexes in the source make each
   `Increment` / `Reset` / `Add` atomic, so a concurrent execution is some
   interleaving (a sequence) of these atomic operations; theorems about
   concurrent behaviour quantify over such sequences.
 * Fallible Go functions (`error` results) return `Except` or pair their
   result with an `Option` error, mirroring the Go signatures.
-/

set_option linter.unusedVariables false

/-- Two's-complement wrap-around of Go's `int32` arithmetic: the unique value
in `[-2^31, 2^31)` congruent to `n` modulo `2^32`. -/
def wrap32 (n : Int) : Int := (n + 2 ^ 31) % 2 ^ 32 - 2 ^ 31

/-! ## Counter Store (`StatHolder`, middleware.go) -/

/-- `StatHolder` holds `counter map[string]int32`.  A Go map read of a missing
key yields the zero value, so the map is embedded as a total function that is
`0` outside its domain.  The `sync.RWMutex` makes `Reset` and `Increment`
atomic; it is not represented explicitly. -/
structure StatHolder where
  counter : List Char → Int

/-- `NewStatHolder` returns a holder with an empty counter map. -/
def NewStatHolder : StatHolder := ⟨fun _ => 0⟩

/-- `Reset` replaces the counter map with a fresh empty one. -/
def StatHolder.Reset (sh : StatHolder) : StatHolder := ⟨fun _ => 0⟩

/-- `Increment` performs `sh.counter[id]++` (Go `int32` arithmetic, hence
`wrap32`) and returns the new holder together with the post-increment value
`sh.counter[id]`. -/
def StatHolder.Increment (sh : StatHolder) (id : List Char) : StatHolder × Int :=
  let v := wrap32 (sh.counter id + 1)
  (⟨fun k => if k = id then v else sh.counter k⟩, v)

/-! ## `net.SplitHostPort` and `requestIP`

`requestIP` delegates to the standard library's `net.SplitHostPort`, which is
transcribed here: it looks for the last `':'`, handles a bracketed IPv6 host,
and rejects addresses with a missing port, too many colons, or stray
brackets.  Error values carry only the message string of the `AddrError`. -/

/-- Index of the first occurrence of `c` (Go `byteIndex`). -/
def byteIndex (c : Char) (s : List Char) : Option Nat :=
  s.findIdx? (· = c)

/-- Index of the last occurrence of `c` (Go `last`). -/
def lastByteIndex (c : Char) (s : List Char) : Option Nat :=
  (s.reverse.findIdx? (· = c)).map (fun j => s.length - 1 - j)

/-- Model of `net.SplitHostPort`, returning `(host, port)` or the
`AddrError` message. -/
def SplitHostPort (hostport : List Char) : Except (List Char) (List Char × List Char) :=
  match lastByteIndex ':' hostport with
  | none => .error "missing port in address".data
  | some i =>
    if hostport.head? = some '[' then
      match byteIndex ']' hostport with
      | none => .error "missing ']' in address".data
      | some e =>
        if e + 1 = hostport.length then .error "missing port in address".data
        else if e + 1 = i then
          let host := (hostport.take e).drop 1
          if ((hostport.drop 1).contains '[') then .error "unexpected '[' in address".data
          else if ((hostport.drop (e + 1)).contains ']') then
            .error "unexpected ']' in address".data
          else .ok (host, hostport.drop (i + 1))
        else if hostport.get? (e + 1) = some ':' then
          .error "too many colons in address".data
        else .error "missing port in address".data
    else
      let host := hostport.take i
      if host.contains ':' then .error "too many colons in address".data
      else if hostport.contains '[' then .error "unexpected '[' in address".data
      else if hostport.contains ']' then .error "unexpected ']' in address".data
      else .ok (host, hostport.drop (i + 1))

/-- `requestIP` returns the host portion of `req.RemoteAddr`, or the
`SplitHostPort` error. -/
def requestIP (remoteAddr : List Char) : Except (List Char) (List Char) :=
  match SplitHostPort remoteAddr with
  | .error e => .error e
  | .ok hp => .ok hp.1

/-! ## Rate-limiting middleware (`RateLimit`) -/

/-- Outcome of one pass through the `RateLimit` middleware body:
reject with 400 (`bad`), reject with 429 (`limited`), or delegate to the
wrapped handler (`pass`, carrying the derived client key). -/
inductive RLResult where
  | bad : RLResult
  | limited : RLResult
  | pass : List Char → RLResult
  deriving DecidableEq, Repr

/-- The decision logic of the handler returned by `RateLimit` for one
request: derive the key with `requestIP` (400 on failure), `Increment`, and
compare the post-increment count against `limit`. -/
def rateLimitStep (limit : Int) (sh : StatHolder) (remoteAddr : List Char) :
    StatHolder × RLResult :=
  match requestIP remoteAddr with
  | .error _ => (sh, .bad)
  | .ok reqIP =>
    let r := sh.Increment reqIP
    if limit < r.2 then (r.1, .limited) else (r.1, .pass reqIP)

/-- A minimal HTTP response: status code and body. -/
structure Resp where
  status : Nat
  body : List Char
  deriving DecidableEq, Repr

/-- The response-level behaviour of the `RateLimit` middleware: `http.Error`
with `http.StatusText` on a rejection, otherwise the downstream handler's
response `next` (the downstream response does not depend on the limiter's
state, so it is passed in directly). -/
def RateLimit (limit : Int) (next : Resp) (sh : StatHolder) (remoteAddr : List Char) :
    StatHolder × Resp :=
  let r := rateLimitStep limit sh remoteAddr
  ( r.1
  , match r.2 with
    | .bad => ⟨400, "Bad Request".data⟩
    | .limited => ⟨429, "Too Many Requests".data⟩
    | .pass _ => next )

/-- Run the middleware decision over a sequence of requests (identified by
their peer addresses), threading the shared `StatHolder` through. -/
def runLimiter (limit : Int) : StatHolder → List (List Char) → StatHolder × List RLResult
  | sh, [] => (sh, [])
  | sh, a :: rest =>
    let r := rateLimitStep limit sh a
    let rr := runLimiter limit r.1 rest
    (rr.1, r.2 :: rr.2)

/-- A sequence of atomic `Increment` calls (any interleaving of concurrent
callers, serialized by the holder's mutex), threading the holder through. -/
def applyIncrements (sh : StatHolder) (ids : List (List Char)) : StatHolder :=
  ids.foldl (fun s id => (s.Increment id).1) sh

/-! ## Line splitting (`splitToLines`, handler.go)

`splitToLines` drives a `bufio.Scanner` with the default `ScanLines` split
function and default buffer limits over the request body and keeps the
non-empty tokens, returning them together with `sc.Err()`.

`bufio.ScanLines` yields, for each segment of the input delimited by `'\n'`,
the segment with one trailing `'\r'` dropped.  The scanner's buffer is capped
at `bufio.MaxScanTokenSize = 65536` bytes; when a raw segment reaches that
length the terminating `'\n'` (or the end-of-input signal, which the
underlying reader only delivers on the read after the last byte) lies beyond
the full buffer, so `Scan` stops with `bufio.ErrTooLong`, keeping the tokens
produced so far. -/

/-- Segments of the input delimited by `'\n'` (the delimiter is consumed;
`n` segments for `n-1` newlines, so trailing/leading/empty segments appear
as `[]`). -/
def splitNL : List Char → List (List Char)
  | [] => [[]]
  | c :: rest =>
    if c = '\n' then [] :: splitNL rest
    else
      match splitNL rest with
      | s :: ss => (c :: s) :: ss
      | [] => [[c]]

/-- `dropCR` of `bufio.ScanLines`: drop one trailing carriage return. -/
def dropCR (l : List Char) : List Char :=
  if l.getLast? = some '\r' then l.dropLast else l

/-- `bufio.MaxScanTokenSize`, the scanner's default maximum token size. -/
def maxScanTokenSize : Nat := 65536

/-- The message of `bufio.ErrTooLong`. -/
def errTooLong : List Char := "bufio.Scanner: token too long".data

/-- The scan loop of `splitToLines` over the raw newline-delimited segments:
each segment shorter than the buffer cap contributes its `dropCR`-token when
non-empty; a segment at or beyond the cap aborts the scan with
`bufio.ErrTooLong`, keeping earlier tokens. -/
def scanSegs : List (List Char) → List (List Char) × Option (List Char)
  | [] => ([], none)
  | seg :: rest =>
    if maxScanTokenSize ≤ seg.length then ([], some errTooLong)
    else
      let t := dropCR seg
      let r := scanSegs rest
      (if t = [] then r.1 else t :: r.1, r.2)

/-- `splitToLines`: the collected non-empty lines and `sc.Err()`. -/
def splitToLines (input : List Char) : List (List Char) × Option (List Char) :=
  scanSegs (splitNL input)

/-! ## URL validation (`isUrl`, handler.go)

`isUrl` calls `net/url.Parse` and requires `err == nil && u.Scheme != "" &&
u.Host != ""`.  The model below follows the scheme/authority extraction of
`net/url`: `getScheme` transcribes the stdlib loop; the host is the
authority component (present only after `"//"`), with user-info up to the
last `'@'` removed.  Stdlib validations that can only turn a `u.Host != ""`
case into a parse error (percent-escape checks, port digits, control
characters, IPv6 brackets) are not modelled; no claim depends on them. -/

/-- Non-alphabetic characters allowed after the first position of a scheme. -/
def isSchemeTail (c : Char) : Bool :=
  c.isDigit || c = '+' || c = '-' || c = '.'

/-- Transcription of `net/url.getScheme`: scan for `':'`; alphabetic
characters always continue a scheme candidate, digits and `+ - .` only after
the first position; any other character means the URL has no scheme; a `':'`
at position 0 is the `missing protocol scheme` parse error. -/
def getScheme (rawURL : List Char) : Except (List Char) (List Char × List Char) :=
  go rawURL []
where
  go : List Char → List Char → Except (List Char) (List Char × List Char)
  | [], _ => .ok ([], rawURL)
  | c :: rest, acc =>
    if c.isAlpha then go rest (acc ++ [c])
    else if isSchemeTail c then
      if acc = [] then .ok ([], rawURL) else go rest (acc ++ [c])
    else if c = ':' then
      if acc = [] then .error "missing protocol scheme".data else .ok (acc, rest)
    else .ok ([], rawURL)

/-- The `Scheme` and `Host` fields produced by `net/url.Parse`: the fragment
(after `'#'`) is split off, the authority follows a leading `"//"` and runs
to the next `'/'` or `'?'`, and the host is the authority after its
user-info (up to the last `'@'`). -/
def parseUrlSchemeHost (s : List Char) : Except (List Char) (List Char × List Char) :=
  match getScheme s with
  | .error e => .error e
  | .ok sr =>
    let rest := sr.2.takeWhile (· ≠ '#')
    if rest.take 2 = ['/', '/'] then
      let auth := (rest.drop 2).takeWhile (fun c => c ≠ '/' && c ≠ '?')
      let host :=
        match lastByteIndex '@' auth with
        | none => auth
        | some i => auth.drop (i + 1)
      .ok (sr.1, host)
    else .ok (sr.1, [])

/-- `isUrl`: `url.Parse` succeeded with a non-empty scheme and host. -/
def isUrl (str : List Char) : Bool :=
  match parseUrlSchemeHost str with
  | .error _ => false
  | .ok u => !u.1.isEmpty && !u.2.isEmpty

/-! ## `getUrls` -/

/-- The validation loop of `getUrls` over the scanned lines: append each
line that `isUrl` accepts, stop at the first rejected line with the error
`'<line>' is not a URL`. -/
def checkUrls : List (List Char) → Except (List Char) (List (List Char))
  | [] => .ok []
  | line :: rest =>
    if isUrl line then
      match checkUrls rest with
      | .error e => .error e
      | .ok us => .ok (line :: us)
    else .error ("'".data ++ line ++ "' is not a URL".data)

/-- `getUrls` on an already-read request body: split it to lines (wrapping a
scan error) and validate every line.  (The `io.ReadAll` of the body is the
inbound transport's job; the body is the model's input.) -/
def getUrls (body : List Char) : Except (List Char) (List (List Char)) :=
  let r := splitToLines body
  match r.2 with
  | some e => .error ("split request body to lines: ".data ++ e)
  | none => checkUrls r.1

/-! ## The fetch client and `doGet` -/

/-- Outcome of one `client.Get(url)` followed by `io.ReadAll(res.Body)`:
either `Get` itself fails, or it yields a body of which `bodyRead` bytes are
read before an optional read error. -/
inductive GetResult where
  | fail : List Char → GetResult
  | ok : List Char → Option (List Char) → GetResult

/-- The `Getter` interface: a capability mapping a URL to a fetch outcome. -/
abbrev Getter : Type := List Char → GetResult

/-- `doGet`: on a `Get` error, `(0, GET '<url>': <err>)`; otherwise the
number of body bytes read, with `read response body: <err>` if the read
failed part-way. -/
def doGet (client : Getter) (url : List Char) : Nat × Option (List Char) :=
  match client url with
  | .fail e => (0, some ("GET '".data ++ url ++ "': ".data ++ e))
  | .ok bytes readErr =>
    (bytes.length, readErr.map (fun e => "read response body: ".data ++ e))

/-! ## Result collector (`resSizes`) and the fan-out (`getRespSizes`)

Each spawned goroutine in `getRespSizes` runs
```
go func(single error) {
    defer wg.Done()
    size, err := h.doGet(url)
    if err != nil { errOnce.Do(func() { single = err }) }
    h.sizes.Add(size)
}(err)
```
Go passes `err` to the goroutine **by value**: `single` is a fresh per-task
variable initialised with the outer `err`'s current value, and `single = err`
writes that copy only.  The outer `err` returned by `getRespSizes` is
therefore never assigned.  Each task's `Add` is atomic (mutex in `Add`), so
an execution is a sequence of whole-task steps in completion order — any
permutation of the URL list. -/

/-- `Add` appends a byte length to the collector under its mutex. -/
def resSizesAdd (s : List Nat) (i : Nat) : List Nat := s ++ [i]

/-- State of the fan-out: the shared collector contents, whether `errOnce`
has fired, and the final value of each completed task's local `single`. -/
structure FanState where
  sizes : List Nat
  onceDone : Bool
  locals : List (Option (List Char))
  deriving Repr

/-- One whole fetch task, run atomically at its completion point: `doGet`,
the `errOnce`-guarded write to the task's own `single` copy, and the
unconditional `h.sizes.Add(size)`. -/
def runTask (client : Getter) (st : FanState) (url : List Char) : FanState :=
  let r := doGet client url
  { sizes := resSizesAdd st.sizes r.1
    onceDone := st.onceDone || r.2.isSome
    locals := st.locals ++ [if r.2.isSome && !st.onceDone then r.2 else none] }

/-- The fan-out tasks executed in completion order `exec`. -/
def runTasks (client : Getter) : FanState → List (List Char) → FanState
  | st, [] => st
  | st, u :: rest => runTasks client (runTask client st u) rest

/-- `getRespSizes`, for completion order `exec` of the URL list: reset the
collector (`h.sizes.s = make([]int, 0)`), run all tasks, wait, and return
the outer `err` — which is still `nil`, the goroutines having written only
their by-value `single` copies. -/
def getRespSizes (client : Getter) (exec : List (List Char)) :
    List Nat × Option (List Char) :=
  ((runTasks client ⟨[], false, []⟩ exec).sizes, none)

/-! ## Rendering (`resSizes.String`) -/

/-- `strconv.Itoa` for the collected (non-negative) byte lengths. -/
def itoa (n : Nat) : List Char := (Nat.repr n).data

/-- `resSizes.String`: write each size in decimal, appending `"\n"` after
position `i` exactly when `sLen - i > 1` (i.e. not after the last one). -/
def resSizesString (s : List Nat) : List Char :=
  let sLen := s.length
  s.enum.foldl (fun b p => b ++ itoa p.2 ++ if sLen - p.1 > 1 then ['\n'] else []) []

/-- The specification's rendering (§4.4): one line per size, lines separated
by a single `'\n'`, no trailing newline, the empty list rendering empty. -/
def joinLinesSpec : List (List Char) → List Char
  | [] => []
  | [l] => l
  | l :: ls => l ++ '\n' :: joinLinesSpec ls

/-! ## `serve` and `ServeHTTP` -/

/-- `serve`: `getUrls` failure → 500 `get urls: …`; `getRespSizes` failure →
500 `get sizes of responses: …` (an unreachable branch, kept from the
source); otherwise the rendered sizes with status 200. -/
def serve (client : Getter) (sched : List (List Char) → List (List Char))
    (body : List Char) : Resp :=
  match getUrls body with
  | .error e => ⟨500, "get urls: ".data ++ e⟩
  | .ok urls =>
    let r := getRespSizes client (sched urls)
    match r.2 with
    | some e => ⟨500, "get sizes of responses: ".data ++ e⟩
    | none => ⟨200, resSizesString r.1⟩

/-- The request method, as far as `ServeHTTP` inspects it. -/
inductive Method where
  | post : Method
  | get : Method
  | other : Method
  deriving DecidableEq, Repr

/-- `ResponseSizeCounter.ServeHTTP`: `serve` on POST, 405 otherwise.
`sched` is the completion order of the fan-out (a function reordering the
URL list; the theorems quantify over it). -/
def ServeHTTP (client : Getter) (sched : List (List Char) → List (List Char))
    (method : Method) (body : List Char) : Resp :=
  if method = .post then serve client sched body
  else ⟨405, "Only POST method supported.".data⟩

/-! ## Operations on the shared collector, for the scoping claim

`MakeResponseSizeCounter` builds **one** `ResponseSizeCounter` and the HTTP
server calls its `ServeHTTP` concurrently, so `h.sizes` is shared by all
in-flight requests.  Under the collector's mutex an execution of several
requests is an interleaving of their atomic collector operations:
`h.sizes.s = make([]int, 0)` (`reset`) and `h.sizes.Add(size)` (`add`). -/

/-- An atomic operation on the shared `resSizes` of the one handler. -/
inductive SizeOp where
  | reset : SizeOp
  | add : Nat → SizeOp
  deriving DecidableEq, Repr

/-- Apply a sequence of interleaved collector operations to the shared
collector contents. -/
def applySizeOps (ops : List SizeOp) (s : List Nat) : List Nat :=
  ops.foldl (fun s op => match op with | .reset => [] | .add n => resSizesAdd s n) s

/-! ## Concrete data used by the witnesses -/

/-- A concrete fetch client: `https://a.com` fails at `Get`, every other URL
returns a 3-byte body. -/
def clientW : Getter := fun u =>
  if u = "https://a.com".data then .fail "boom".data else .ok "xyz".data none

/-- A concrete request body with two valid URLs. -/
def bodyW : List Char := "https://a.com\nhttps://b.com".data

/-- The URL list `getUrls` extracts from `bodyW`. -/
def urlsW : List (List Char) := ["https://a.com".data, "https://b.com".data]

/-- The specification's line extraction (§4.3 step 2): the newline-delimited
segments of the body (with the `'\r'` of a CRLF ending dropped, as
`bufio.ScanLines` does), discarding empty lines. -/
def specLines (body : List Char) : List (List Char) :=
  ((splitNL body).map dropCR).filter (fun l => !l.isEmpty)

/-- A concrete interleaving of the shared-collector operations of two
concurrent requests A and B on the one handler instance: A's reset, B's
reset, A's `Add 10`, B's `Add 20` (each request's own operations appear in
its program order). -/
def sharedSched : List SizeOp := [.reset, .reset, .add 10, .add 20]

/-- The peer address used by the repository's own middleware test. -/
def addr127 : List Char := "127.0.0.1:80".data

/-- The host portion of `addr127`. -/
def ip127 : List Char := "127.0.0.1".data

/-- A concrete counter key. -/
def keyA : List Char := "10.0.0.1".data

/-- A second, distinct counter key. -/
def keyB : List Char := "10.0.0.2".data

/-! ## Theorems -/

theorem renderFold (l : List Nat) : ∀ (k n : Nat) (b : List Char), n = k + l.length →
    (List.enumFrom k l).foldl
      (fun b p => b ++ itoa p.2 ++ if n - p.1 > 1 then ['\n'] else []) b
      = b ++ joinLinesSpec (l.map itoa) := by
  induction l with
  | nil => intro k n b h; simp [List.enumFrom, joinLinesSpec]
  | cons x xs ih =>
    intro k n b h
    cases xs with
    | nil =>
      have hc : ¬ (n - k > 1) := by simp at h; omega
      simp [List.enumFrom, joinLinesSpec, hc]
    | cons y ys =>
      have hc : n - k > 1 := by simp at h; omega
      have e1 : List.enumFrom k (x :: y :: ys) = (k, x) :: List.enumFrom (k + 1) (y :: ys) := rfl
      rw [e1, List.foldl_cons, ih (k + 1) n _ (by simp at h ⊢; omega)]
      simp [joinLinesSpec, hc, List.append_assoc]

/-- C6: for every recorded list of sizes, `resSizes.String` renders one
decimal integer per recorded size in insertion order, consecutive lines
separated by a single newline and no trailing newline — i.e. it equals the
newline-join of the decimal renderings — and the empty list renders as the
empty string. -/
theorem renderMatchesSpec (s : List Nat) :
    resSizesString s = joinLinesSpec (s.map itoa) ∧ resSizesString [] = [] := by
  constructor
  · show (List.enumFrom 0 s).foldl _ [] = _
    rw [renderFold s 0 s.length [] (by omega)]
    rfl
  · rfl

theorem scanSegs_ok : ∀ segs : List (List Char), (scanSegs segs).2 = none →
    (scanSegs segs).1 = (segs.map dropCR).filter (fun l => !l.isEmpty) := by
  intro segs
  induction segs with
  | nil => intro _; rfl
  | cons seg rest ih =>
    intro h
    by_cases hl : maxScanTokenSize ≤ seg.length
    · simp [scanSegs, hl] at h
    · simp only [scanSegs, if_neg hl] at h ⊢
      by_cases ht : dropCR seg = []
      · simp [ht, ih h, List.filter_cons]
      · simp [ht, ih h, List.filter_cons, List.isEmpty_iff]

theorem scanSegs_err : ∀ segs : List (List Char),
    (∃ seg ∈ segs, maxScanTokenSize ≤ seg.length) →
    (scanSegs segs).2 = some errTooLong := by
  intro segs
  induction segs with
  | nil => intro h; simp at h
  | cons seg rest ih =>
    intro h
    by_cases hl : maxScanTokenSize ≤ seg.length
    · simp [scanSegs, hl]
    · simp only [scanSegs, if_neg hl]
      apply ih
      obtain ⟨s, hs, hlen⟩ := h
      rcases List.mem_cons.mp hs with he | hm
      · exact absurd (he ▸ hlen) hl
      · exact ⟨s, hm, hlen⟩

theorem checkUrls_ok_iff : ∀ ls us : List (List Char),
    checkUrls ls = .ok us ↔ (us = ls ∧ ∀ l ∈ ls, isUrl l = true) := by
  intro ls
  induction ls with
  | nil =>
    intro us
    simp only [checkUrls, List.not_mem_nil, false_implies, implies_true, and_true]
    constructor
    · intro h; cases h; rfl
    · intro h; cases h; rfl
  | cons line rest ih =>
    intro us
    by_cases hu : isUrl line
    · cases hrest : checkUrls rest with
      | error e =>
        simp only [checkUrls, hu, if_true, hrest]
        constructor
        · intro h; cases h
        · rintro ⟨hus, hall⟩
          have : checkUrls rest = .ok rest :=
            (ih rest).mpr ⟨rfl, fun l hm => hall l (List.mem_cons_of_mem _ hm)⟩
          rw [hrest] at this; cases this
      | ok us' =>
        have hr := (ih us').mp hrest
        simp only [checkUrls, hu, if_true, hrest]
        constructor
        · intro h
          cases h
          exact ⟨by rw [hr.1], by
            intro l hm
            rcases List.mem_cons.mp hm with he | hm'
            · exact he ▸ hu
            · exact hr.2 l (hr.1 ▸ hm')⟩
        · rintro ⟨hus, hall⟩
          subst hus
          rw [hr.1]
    · simp only [checkUrls, hu, if_false]
      constructor
      · intro h; cases h
      · rintro ⟨hus, hall⟩
        exact absurd (hall line (List.mem_cons_self _ _)) (by simp [hu])

theorem checkUrls_err : ∀ ls : List (List Char), ∀ l0 : List Char,
    ls.find? (fun l => !isUrl l) = some l0 →
    checkUrls ls = .error ("'".data ++ l0 ++ "' is not a URL".data) := by
  intro ls
  induction ls with
  | nil => intro l0 h; simp [List.find?] at h
  | cons line rest ih =>
    intro l0 h
    by_cases hu : isUrl line
    · rw [List.find?_cons_of_neg _ (by simp [hu])] at h
      simp only [checkUrls, hu, if_true, ih l0 h]
    · rw [List.find?_cons_of_pos _ (by simp [hu])] at h
      cases h
      simp [checkUrls, hu]

/-- C5: `getUrls` splits the body on newline boundaries discarding empty
lines; a line is accepted exactly when it parses with a non-empty scheme and
a non-empty host; if any line fails validation the whole request fails with
an error carrying the (first) offending line, and no URL list is accepted. -/
theorem urlBatchValidation (body : List Char)
    (hscan : (splitToLines body).2 = none) :
    (splitToLines body).1 = specLines body ∧
    (∀ l : List Char, isUrl l = true ↔
      ∃ u, parseUrlSchemeHost l = .ok u ∧ u.1 ≠ [] ∧ u.2 ≠ []) ∧
    (∀ urls : List (List Char), getUrls body = .ok urls ↔
      (urls = specLines body ∧ ∀ l ∈ specLines body, isUrl l = true)) ∧
    (∀ l0 : List Char, (specLines body).find? (fun l => !isUrl l) = some l0 →
      getUrls body = .error ("'".data ++ l0 ++ "' is not a URL".data)) := by
  have hlines : (splitToLines body).1 = specLines body := scanSegs_ok _ hscan
  have hget : getUrls body = checkUrls (specLines body) := by
    rw [← hlines]
    simp only [getUrls, hscan]
  refine ⟨hlines, ?_, ?_, ?_⟩
  · intro l
    cases hp : parseUrlSchemeHost l with
    | error e => simp [isUrl, hp]
    | ok u =>
      simp only [isUrl, hp]
      constructor
      · intro h
        simp only [Bool.and_eq_true, Bool.not_eq_true'] at h
        refine ⟨u, rfl, ?_, ?_⟩
        · intro h1; rw [h1] at h; simp at h
        · intro h2; rw [h2] at h; simp at h
      · rintro ⟨u', hu', h1, h2⟩
        cases hu'
        simp only [Bool.and_eq_true, Bool.not_eq_true']
        constructor
        · cases h1' : u.1 with
          | nil => exact absurd h1' h1
          | cons a as => rfl
        · cases h2' : u.2 with
          | nil => exact absurd h2' h2
          | cons a as => rfl
  · intro urls
    rw [hget]
    exact checkUrls_ok_iff _ urls
  · intro l0 hf
    rw [hget]
    exact checkUrls_err _ l0 hf

theorem urlBatchValidation_witness :
    ((splitToLines "https://a.com\n\ntest-1.xyz".data).2 = none) ∧
    ((splitToLines "https://a.com\n\ntest-1.xyz".data).1
        = specLines "https://a.com\n\ntest-1.xyz".data ∧
      (∀ l : List Char, isUrl l = true ↔
        ∃ u, parseUrlSchemeHost l = .ok u ∧ u.1 ≠ [] ∧ u.2 ≠ []) ∧
      (∀ urls : List (List Char), getUrls "https://a.com\n\ntest-1.xyz".data = .ok urls ↔
        (urls = specLines "https://a.com\n\ntest-1.xyz".data ∧
          ∀ l ∈ specLines "https://a.com\n\ntest-1.xyz".data, isUrl l = true)) ∧
      (∀ l0 : List Char,
        (specLines "https://a.com\n\ntest-1.xyz".data).find? (fun l => !isUrl l) = some l0 →
        getUrls "https://a.com\n\ntest-1.xyz".data
          = .error ("'".data ++ l0 ++ "' is not a URL".data))) :=
  ⟨rfl, urlBatchValidation "https://a.com\n\ntest-1.xyz".data rfl⟩

/-- C3 counterexample: the repository's own bad-batch input `test-1.xyz`
drives the handler to status 500 (`http.StatusInternalServerError`, as its
test expects), not 400. -/
theorem invalidUrlStatus_cex :
    (ServeHTTP clientW id .post "test-1.xyz".data).status = 500 ∧
    ¬ (ServeHTTP clientW id .post "test-1.xyz".data).status = 400 := by
  constructor
  · rfl
  · intro h
    rw [show (ServeHTTP clientW id .post "test-1.xyz".data).status = 500 from rfl] at h
    cases h

/-- C3 amended: a request whose body contains a line that is not a valid
absolute URL is answered with status 500 (the handler wraps the `getUrls`
failure in `http.StatusInternalServerError`), not with the 400 class. -/
theorem invalidUrlStatus (client : Getter) (sched : List (List Char) → List (List Char))
    (body l : List Char) (hscan : (splitToLines body).2 = none)
    (hl : l ∈ (splitToLines body).1) (hbad : isUrl l = false) :
    (ServeHTTP client sched .post body).status = 500 := by
  have hs : ((splitToLines body).1.find? (fun l => !isUrl l)).isSome := by
    rw [List.find?_isSome]
    exact ⟨l, hl, by simp [hbad]⟩
  obtain ⟨l0, hf⟩ := Option.isSome_iff_exists.mp hs
  have herr := checkUrls_err _ l0 hf
  have hget : getUrls body = .error ("'".data ++ l0 ++ "' is not a URL".data) := by
    simp only [getUrls, hscan]
    exact herr
  simp [ServeHTTP, serve, hget]

theorem invalidUrlStatus_witness :
    ((splitToLines "test-1.xyz".data).2 = none ∧
      "test-1.xyz".data ∈ (splitToLines "test-1.xyz".data).1 ∧
      isUrl "test-1.xyz".data = false) ∧
    (ServeHTTP clientW id .post "test-1.xyz".data).status = 500 :=
  ⟨⟨rfl, by decide, rfl⟩,
    invalidUrlStatus clientW id "test-1.xyz".data "test-1.xyz".data rfl (by decide) rfl⟩

theorem splitNL_noNewline : ∀ l : List Char, '\n' ∉ l → splitNL l = [l] := by
  intro l
  induction l with
  | nil => intro _; rfl
  | cons c rest ih =>
    intro h
    have hc : ¬ c = '\n' := fun he => h (he ▸ List.mem_cons_self c rest)
    have hr : splitNL rest = [rest] := ih (fun hm => h (List.mem_cons_of_mem c hm))
    simp [splitNL, hc, hr]

/-- C10: a request body containing a line longer than the scanner's default
maximum token size (65536 bytes) makes `splitToLines` fail with
`bufio.ErrTooLong`, so the whole request is rejected with status 500 even if
every URL in the body would otherwise be valid. -/
theorem longLineRejected (client : Getter) (sched : List (List Char) → List (List Char))
    (body : List Char)
    (hlong : ∃ seg ∈ splitNL body, maxScanTokenSize < seg.length) :
    getUrls body = .error ("split request body to lines: ".data ++ errTooLong) ∧
    (ServeHTTP client sched .post body).status = 500 := by
  have h2 : (splitToLines body).2 = some errTooLong := by
    apply scanSegs_err
    obtain ⟨seg, hm, hlen⟩ := hlong
    exact ⟨seg, hm, le_of_lt hlen⟩
  have hget : getUrls body = .error ("split request body to lines: ".data ++ errTooLong) := by
    simp only [getUrls, h2]
  exact ⟨hget, by simp [ServeHTTP, serve, hget]⟩

theorem longLineRejected_witness :
    (∃ seg ∈ splitNL (List.replicate 65537 'a'), maxScanTokenSize < seg.length) ∧
    (ServeHTTP clientW id .post (List.replicate 65537 'a')).status = 500 := by
  have hnn : '\n' ∉ List.replicate 65537 'a' := by
    intro hm
    exact absurd (List.eq_of_mem_replicate hm) (by decide)
  have hex : ∃ seg ∈ splitNL (List.replicate 65537 'a'), maxScanTokenSize < seg.length := by
    rw [splitNL_noNewline _ hnn]
    refine ⟨_, List.mem_singleton_self _, ?_⟩
    rw [List.length_replicate]
    decide
  exact ⟨hex, (longLineRejected clientW id _ hex).2⟩

theorem runTasks_sizes (client : Getter) : ∀ (exec : List (List Char)) (st : FanState),
    (runTasks client st exec).sizes
      = st.sizes ++ exec.map (fun u => (doGet client u).1) := by
  intro exec
  induction exec with
  | nil => intro st; simp [runTasks]
  | cons u rest ih =>
    intro st
    rw [runTasks, ih]
    simp [runTask, resSizesAdd]

theorem runTasks_locals_mono (client : Getter) : ∀ (exec : List (List Char)) (st : FanState),
    ∃ tl, (runTasks client st exec).locals = st.locals ++ tl := by
  intro exec
  induction exec with
  | nil => intro st; exact ⟨[], by simp [runTasks]⟩
  | cons u rest ih =>
    intro st
    obtain ⟨tl, htl⟩ := ih (runTask client st u)
    refine ⟨(if ((doGet client u).2).isSome && !st.onceDone then (doGet client u).2
      else none) :: tl, ?_⟩
    rw [runTasks, htl]
    simp [runTask, List.append_assoc]

theorem runTasks_localSome (client : Getter) : ∀ (exec : List (List Char)) (st : FanState),
    st.onceDone = false → (∃ u ∈ exec, ((doGet client u).2).isSome) →
    ∃ e ∈ (runTasks client st exec).locals, e.isSome := by
  intro exec
  induction exec with
  | nil => intro st _ h; simp at h
  | cons u rest ih =>
    intro st h0 hex
    by_cases hu : ((doGet client u).2).isSome
    · obtain ⟨tl, htl⟩ := runTasks_locals_mono client rest (runTask client st u)
      refine ⟨(doGet client u).2, ?_, hu⟩
      rw [runTasks, htl]
      apply List.mem_append_left
      simp [runTask, h0, hu]
    · obtain ⟨u', hu', hs'⟩ := hex
      rcases List.mem_cons.mp hu' with he | hm
      · exact absurd (he ▸ hs') hu
      · rw [runTasks]
        apply ih (runTask client st u) _ ⟨u', hm, hs'⟩
        simp [runTask, h0]
        simp at hu
        simp [hu]

/-- C1: for every request with a non-empty URL list and at least one failing
fetch, the failure is captured only inside some task's by-value `single`
copy: `getRespSizes` still returns a `nil` error, and the handler writes the
rendered sizes with status 200 — no fetch error reaches the caller. -/
theorem fetchErrorNeverPropagates (client : Getter)
    (sched : List (List Char) → List (List Char)) (body : List Char)
    (urls : List (List Char))
    (hurls : getUrls body = .ok urls) (hne : urls ≠ [])
    (hperm : (sched urls).Perm urls)
    (hfail : ∃ u ∈ urls, ((doGet client u).2).isSome) :
    (getRespSizes client (sched urls)).2 = none ∧
    ServeHTTP client sched .post body
      = ⟨200, resSizesString (getRespSizes client (sched urls)).1⟩ ∧
    ∃ e ∈ (runTasks client ⟨[], false, []⟩ (sched urls)).locals, e.isSome := by
  refine ⟨rfl, ?_, ?_⟩
  · simp [ServeHTTP, serve, hurls, getRespSizes]
  · apply runTasks_localSome client (sched urls) _ rfl
    obtain ⟨u, hu, hs⟩ := hfail
    exact ⟨u, hperm.mem_iff.mpr hu, hs⟩

theorem fetchErrorNeverPropagates_witness :
    (getUrls bodyW = .ok urlsW ∧ urlsW ≠ [] ∧ (id urlsW).Perm urlsW ∧
      (∃ u ∈ urlsW, ((doGet clientW u).2).isSome)) ∧
    ((getRespSizes clientW (id urlsW)).2 = none ∧
      ServeHTTP clientW id .post bodyW
        = ⟨200, resSizesString (getRespSizes clientW (id urlsW)).1⟩ ∧
      ∃ e ∈ (runTasks clientW ⟨[], false, []⟩ (id urlsW)).locals, e.isSome) :=
  ⟨⟨rfl, by decide, List.Perm.refl _, by decide⟩,
    fetchErrorNeverPropagates clientW id bodyW urlsW rfl (by decide)
      (List.Perm.refl _) (by decide)⟩

/-- C2 counterexample: `bodyW` holds N = 2 valid URLs of which F = 1 fetch
fails, yet the response has 2 rendered lines, not N - F = 1: the failed
`Get` appended a `0` placeholder line (`h.sizes.Add(size)` runs
unconditionally with `size = 0`). -/
theorem noPlaceholderLine_cex :
    urlsW.length = 2 ∧
    urlsW.countP (fun u => ((doGet clientW u).2).isSome) = 1 ∧
    (getRespSizes clientW (id urlsW)).1 = [0, 3] ∧
    ¬ (getRespSizes clientW (id urlsW)).1.length = 2 - 1 ∧
    serve clientW id bodyW = ⟨200, "0\n3".data⟩ := by
  refine ⟨rfl, rfl, rfl, ?_, rfl⟩
  intro h
  rw [show (getRespSizes clientW (id urlsW)).1.length = 2 from rfl] at h
  cases h

/-- C2 amended: every fetch task appends a size — `0` when `Get` fails, the
partial read length when the body read fails — so the recorded sizes are the
per-URL `doGet` sizes in completion order and the rendered response has
exactly N lines for N URLs, with a `0` line standing for each failed `Get`
rather than the line being omitted. -/
theorem allFetchesAppendSize (client : Getter) (urls exec : List (List Char))
    (hperm : exec.Perm urls) :
    (getRespSizes client exec).1 = exec.map (fun u => (doGet client u).1) ∧
    (getRespSizes client exec).1.length = urls.length := by
  have h := runTasks_sizes client exec ⟨[], false, []⟩
  have h1 : (getRespSizes client exec).1 = exec.map (fun u => (doGet client u).1) := by
    simpa [getRespSizes] using h
  refine ⟨h1, ?_⟩
  rw [h1, List.length_map]
  exact hperm.length_eq

theorem allFetchesAppendSize_witness :
    (id urlsW).Perm urlsW ∧
    ((getRespSizes clientW (id urlsW)).1 = (id urlsW).map (fun u => (doGet clientW u).1) ∧
      (getRespSizes clientW (id urlsW)).1.length = urlsW.length) :=
  ⟨List.Perm.refl _, allFetchesAppendSize clientW urlsW (id urlsW) (List.Perm.refl _)⟩

theorem wrap32_eq_self (n : Int) (h1 : -(2 ^ 31) ≤ n) (h2 : n < 2 ^ 31) : wrap32 n = n := by
  unfold wrap32
  omega

theorem wrap32_step (m : Int) : wrap32 (wrap32 m + 1) = wrap32 (m + 1) := by
  unfold wrap32
  omega

theorem wrap32_range (n : Int) : -(2 ^ 31) ≤ wrap32 n ∧ wrap32 n < 2 ^ 31 := by
  unfold wrap32
  omega

theorem applyIncrements_counter (k : List Char) :
    ∀ (ids : List (List Char)) (sh : StatHolder) (m : Int),
    sh.counter k = wrap32 m →
    (applyIncrements sh ids).counter k = wrap32 (m + ids.count k) := by
  intro ids
  induction ids with
  | nil => intro sh m h; simpa [applyIncrements] using h
  | cons id rest ih =>
    intro sh m h
    have hstep : applyIncrements sh (id :: rest) = applyIncrements (sh.Increment id).1 rest := by
      simp [applyIncrements]
    rw [hstep]
    by_cases hk : id = k
    · subst hk
      have hc : ((sh.Increment id).1).counter id = wrap32 (m + 1) := by
        simp [StatHolder.Increment, h, wrap32_step]
      rw [ih _ (m + 1) hc]
      have : (id :: rest).count id = rest.count id + 1 := by
        simp [List.count_cons]
      rw [this]
      congr 1
      push_cast
      ring
    · have hc : ((sh.Increment id).1).counter k = wrap32 m := by
        simp only [StatHolder.Increment]
        rw [if_neg (fun he => hk he.symm)]
        exact h
      rw [ih _ m hc]
      have : (id :: rest).count k = rest.count k := by
        simp [List.count_cons, hk]
      rw [this]

/-- C8 counterexample: 2^31 increments of one key between two resets leave
the `int32` counter at -2^31, not at the number of calls — the count wraps,
so "the final count equals n" fails for n = 2^31. -/
theorem incrementOverflow_cex :
    (applyIncrements NewStatHolder.Reset (List.replicate (2 ^ 31) keyA)).counter keyA
        = -(2 ^ 31) ∧
    (List.replicate (2 ^ 31) keyA).count keyA = 2 ^ 31 ∧
    ((-(2 ^ 31) : Int) ≠ ((2 ^ 31 : Nat) : Int)) := by
  have hcount : (List.replicate (2 ^ 31) keyA).count keyA = 2 ^ 31 :=
    List.count_replicate_self _ _
  have h0 : (NewStatHolder.Reset).counter keyA = wrap32 0 := by
    show (0 : Int) = wrap32 0
    unfold wrap32
    omega
  have h := applyIncrements_counter keyA (List.replicate (2 ^ 31) keyA) _ 0 h0
  rw [hcount] at h
  refine ⟨?_, hcount, by norm_num⟩
  rw [h]
  unfold wrap32
  norm_num

/-- C8 amended: between two resets, any serialized interleaving of atomic
`Increment` calls — `n` of them on key `k`, arbitrarily interleaved with
calls for other keys — loses no increment as long as `n` stays below the
`int32` limit 2^31: the final count for `k` is exactly `n` (in general it is
`n` reduced into `int32` range by `wrap32`). -/
theorem noIncrementLost (sh0 : StatHolder) (ids : List (List Char)) (k : List Char)
    (hn : ((ids.count k : Nat) : Int) < 2 ^ 31) :
    (applyIncrements sh0.Reset ids).counter k = ids.count k := by
  have h0 : (sh0.Reset).counter k = wrap32 0 := by
    show (0 : Int) = wrap32 0
    unfold wrap32
    omega
  rw [applyIncrements_counter k ids sh0.Reset 0 h0]
  have := wrap32_eq_self ((ids.count k : Nat) : Int) (by omega) hn
  simpa using this

theorem noIncrementLost_witness :
    ((([keyA, keyB, keyA].count keyA : Nat) : Int) < 2 ^ 31) ∧
    (applyIncrements NewStatHolder.Reset [keyA, keyB, keyA]).counter keyA
      = [keyA, keyB, keyA].count keyA :=
  ⟨by decide, noIncrementLost NewStatHolder [keyA, keyB, keyA] keyA (by decide)⟩

theorem runLimiter_append (limit : Int) : ∀ (l1 l2 : List (List Char)) (sh : StatHolder),
    runLimiter limit sh (l1 ++ l2)
      = ((runLimiter limit (runLimiter limit sh l1).1 l2).1,
         (runLimiter limit sh l1).2 ++ (runLimiter limit (runLimiter limit sh l1).1 l2).2) := by
  intro l1
  induction l1 with
  | nil => intro l2 sh; simp [runLimiter]
  | cons a rest ih =>
    intro l2 sh
    simp only [List.cons_append, runLimiter, List.append_eq]
    rw [ih]

theorem runLimiter_pass (limit : Int) (addr ip : List Char)
    (hip : requestIP addr = .ok ip) :
    ∀ (j : Nat) (sh : StatHolder) (c : Int),
    sh.counter ip = c → 0 ≤ c → c + (j : Int) ≤ limit → limit < 2 ^ 31 →
    (runLimiter limit sh (List.replicate j addr)).2
      = List.replicate j (RLResult.pass ip) ∧
    (runLimiter limit sh (List.replicate j addr)).1.counter ip = c + (j : Int) := by
  intro j
  induction j with
  | zero => intro sh c h hc hle hlim; simp [runLimiter, h]
  | succ n ih =>
    intro sh c h hc hle hlim
    have hcast : ((n + 1 : Nat) : Int) = (n : Int) + 1 := by push_cast; ring
    rw [hcast] at hle
    have hw : wrap32 (c + 1) = c + 1 := wrap32_eq_self _ (by omega) (by omega)
    have hnl : ¬ (limit < c + 1) := by omega
    have hstep : rateLimitStep limit sh addr = ((sh.Increment ip).1, .pass ip) := by
      simp only [rateLimitStep, hip, StatHolder.Increment, h, hw]
      rw [if_neg hnl]
    have hcnt : ((sh.Increment ip).1).counter ip = c + 1 := by
      simp [StatHolder.Increment, h, hw]
    obtain ⟨h1, h2⟩ := ih (sh.Increment ip).1 (c + 1) hcnt (by omega) (by omega) hlim
    rw [List.replicate_succ, runLimiter, hstep]
    constructor
    · simp only [h1, List.replicate_succ]
    · rw [h2, hcast]
      ring

/-- C4 amended: for a limiter with limit `L` where `0 < L` and `L + 1` still
fits in `int32` (`L + 1 < 2^31`), and one client key, the first `L` requests
in a window are delegated downstream, the `(L+1)`-th is rejected with the
rate-limited outcome, and after a reset a request from the same key is
delegated again with post-increment count 1.  (Without the `int32` bound the
`(L+1)`-th rejection fails — see the counterexample.) -/
theorem fixedWindowLimit (L : Nat) (addr ip : List Char)
    (hip : requestIP addr = .ok ip) (hL : 0 < L) (hbound : (L : Int) + 1 < 2 ^ 31) :
    (runLimiter (L : Int) NewStatHolder (List.replicate (L + 1) addr)).2
      = List.replicate L (RLResult.pass ip) ++ [RLResult.limited] ∧
    (rateLimitStep (L : Int)
        ((runLimiter (L : Int) NewStatHolder (List.replicate (L + 1) addr)).1.Reset) addr).2
      = RLResult.pass ip ∧
    ((((runLimiter (L : Int) NewStatHolder (List.replicate (L + 1) addr)).1.Reset).Increment
        ip)).2 = 1 := by
  have hw1 : wrap32 (0 + 1) = 0 + 1 := wrap32_eq_self _ (by omega) (by omega)
  obtain ⟨hp2, hp1⟩ := runLimiter_pass (L : Int) addr ip hip L NewStatHolder 0 rfl le_rfl
    (by omega) (by omega)
  have hsplit : List.replicate (L + 1) addr = List.replicate L addr ++ [addr] :=
    List.replicate_succ' L addr
  have hwL : wrap32 ((L : Int) + 1) = (L : Int) + 1 := wrap32_eq_self _ (by omega) hbound
  have hcnt : (runLimiter (L : Int) NewStatHolder (List.replicate L addr)).1.counter ip
      = (L : Int) := by
    rw [hp1]; ring
  have hstepLim : rateLimitStep (L : Int)
      (runLimiter (L : Int) NewStatHolder (List.replicate L addr)).1 addr
      = (((runLimiter (L : Int) NewStatHolder (List.replicate L addr)).1.Increment ip).1,
          .limited) := by
    simp only [rateLimitStep, hip, StatHolder.Increment, hcnt, hwL]
    rw [if_pos (by omega)]
  refine ⟨?_, ?_, ?_⟩
  · rw [hsplit, runLimiter_append]
    simp only [runLimiter, hstepLim, hp2]
  · have hreset : ∀ sh : StatHolder, (rateLimitStep (L : Int) sh.Reset addr).2
        = RLResult.pass ip := by
      intro sh
      simp only [rateLimitStep, hip, StatHolder.Increment, StatHolder.Reset, hw1]
      rw [if_neg (by omega)]
    exact hreset _
  · simp only [StatHolder.Increment, StatHolder.Reset, hw1]
    norm_num

theorem fixedWindowLimit_witness :
    (requestIP addr127 = .ok ip127 ∧ 0 < 3 ∧ ((3 : Nat) : Int) + 1 < 2 ^ 31) ∧
    ((runLimiter ((3 : Nat) : Int) NewStatHolder (List.replicate (3 + 1) addr127)).2
        = List.replicate 3 (RLResult.pass ip127) ++ [RLResult.limited] ∧
      (rateLimitStep ((3 : Nat) : Int)
          ((runLimiter ((3 : Nat) : Int) NewStatHolder
            (List.replicate (3 + 1) addr127)).1.Reset) addr127).2
        = RLResult.pass ip127 ∧
      ((((runLimiter ((3 : Nat) : Int) NewStatHolder
          (List.replicate (3 + 1) addr127)).1.Reset).Increment ip127)).2 = 1) :=
  ⟨⟨rfl, by decide, by decide⟩, fixedWindowLimit 3 addr127 ip127 rfl (by decide) (by decide)⟩

theorem runLimiter_maxLimit_pass (addr ip : List Char) (hip : requestIP addr = .ok ip) :
    ∀ (j : Nat) (sh : StatHolder),
    (runLimiter ((2 : Int) ^ 31 - 1) sh (List.replicate j addr)).2
      = List.replicate j (RLResult.pass ip) := by
  intro j
  induction j with
  | zero => intro sh; simp [runLimiter]
  | succ n ih =>
    intro sh
    have hr := wrap32_range (sh.counter ip + 1)
    have hnl : ¬ ((2 : Int) ^ 31 - 1 < wrap32 (sh.counter ip + 1)) := by omega
    have hstep : rateLimitStep ((2 : Int) ^ 31 - 1) sh addr
        = ((sh.Increment ip).1, .pass ip) := by
      simp only [rateLimitStep, hip, StatHolder.Increment]
      rw [if_neg hnl]
    rw [List.replicate_succ, runLimiter, hstep]
    simp only [ih, List.replicate_succ]

/-- C4 counterexample: the limit L = 2^31 - 1 is positive, yet all of the
first 2^31 = L + 1 requests from one key inside a single window are
delegated downstream: the `int32` counter wraps to -2^31 at the `(L+1)`-th
request, which is therefore NOT rejected with the rate-limited outcome the
claim requires. -/
theorem fixedWindowLimit_cex :
    (0 : Int) < (2 : Int) ^ 31 - 1 ∧
    (runLimiter ((2 : Int) ^ 31 - 1) NewStatHolder (List.replicate (2 ^ 31) addr127)).2
      = List.replicate (2 ^ 31) (RLResult.pass ip127) :=
  ⟨by norm_num, runLimiter_maxLimit_pass addr127 ip127 rfl (2 ^ 31) NewStatHolder⟩

/-- C7: a peer address with no parsable host portion makes the middleware
answer 400 before touching the counter: the `StatHolder` is returned
untouched (no key incremented) and the rate-limited outcome is impossible on
that path. -/
theorem malformedAddrBypassesCounter (limit : Int) (sh : StatHolder) (next : Resp)
    (addr e : List Char) (herr : requestIP addr = .error e) :
    rateLimitStep limit sh addr = (sh, RLResult.bad) ∧
    RateLimit limit next sh addr = (sh, ⟨400, "Bad Request".data⟩) ∧
    (rateLimitStep limit sh addr).2 ≠ RLResult.limited := by
  have h1 : rateLimitStep limit sh addr = (sh, RLResult.bad) := by
    simp only [rateLimitStep, herr]
  refine ⟨h1, ?_, ?_⟩
  · simp only [RateLimit, h1]
  · rw [h1]
    intro hc
    cases hc

theorem malformedAddrBypassesCounter_witness :
    requestIP "0.0.0.0".data = .error "missing port in address".data ∧
    (rateLimitStep 999 NewStatHolder "0.0.0.0".data = (NewStatHolder, RLResult.bad) ∧
      RateLimit 999 ⟨200, []⟩ NewStatHolder "0.0.0.0".data
        = (NewStatHolder, ⟨400, "Bad Request".data⟩) ∧
      (rateLimitStep 999 NewStatHolder "0.0.0.0".data).2 ≠ RLResult.limited) :=
  ⟨rfl, malformedAddrBypassesCounter 999 NewStatHolder ⟨200, []⟩ "0.0.0.0".data
    "missing port in address".data rfl⟩

/-- C9 (shared-collector data race): `MakeResponseSizeCounter` creates one
`ResponseSizeCounter`, so `h.sizes` is shared by all in-flight requests.  In
the interleaving `sharedSched` of two concurrent requests A (fetch size 10)
and B (fetch size 20) — both requests' own operations in program order, as
the `Sublist` facts record, with B's reset and add falling between A's reset
and A's render — request A's rendered response `10\n20` contains B's line
`20`, refuting the per-request scoping the claim asserts. -/
theorem sharedCollectorAcrossRequests :
    List.Sublist [SizeOp.reset, SizeOp.add 10] sharedSched ∧
    List.Sublist [SizeOp.reset, SizeOp.add 20] sharedSched ∧
    sharedSched.length
      = [SizeOp.reset, SizeOp.add 10].length + [SizeOp.reset, SizeOp.add 20].length ∧
    applySizeOps sharedSched [] = [10, 20] ∧
    resSizesString (applySizeOps sharedSched []) = "10\n20".data ∧
    20 ∈ applySizeOps sharedSched [] := by
  refine ⟨?_, ?_, rfl, rfl, rfl, by decide⟩
  · decide
  · decide
